import Mathlib

/-!
Verification of the invest_alphas trading backend: a shallow embedding of
the formula validator (`backend/utils/alpha_calculator.py`), the expression
parser/evaluator (`backend/utils/expression_parser.py`), the weight
neutralizer, the position sizer and order sequencer
(`backend/service/forward_test_service.py`), the forward-test scheduler
(`backend/executor/forward_test_executor.py`) and the persistence layer
(`backend/storage/db.py`).

Numeric values are modelled as rationals; floating-point NaN (pandas
"undefined") is modelled by `Option ℚ` with `none` for NaN.
-/

namespace InvestAlphas

/-! ### Persistence layer: `backend/storage/db.py`

A row of the `forward_tests` table, restricted to the columns the claims
are about.  Timestamps and dates are abstracted as naturals. -/

structure ForwardTestRec where
  isRunning : Bool
  datetimeEnd : Option ℕ
  lastExecutionDate : Option ℕ
  deriving Repr, DecidableEq

/-- `Database.stop_forward_test`: `UPDATE forward_tests SET datetime_end =
CURRENT_TIMESTAMP, is_running = FALSE WHERE id = $1 AND datetime_end IS
NULL`, returning whether exactly one row was updated. -/
def stop_forward_test (now : ℕ) (r : ForwardTestRec) : ForwardTestRec × Bool :=
  if r.datetimeEnd = none then
    ({ r with datetimeEnd := some now, isRunning := false }, true)
  else (r, false)

/-- The date filter of `Database.get_all_active_forward_tests`:
`ft.last_execution_date IS NULL OR ft.last_execution_date < CURRENT_DATE`. -/
def notExecutedToday (last : Option ℕ) (today : ℕ) : Bool :=
  match last with
  | none => true
  | some d => d < today

/-- The WHERE clause of `Database.get_all_active_forward_tests`:
`is_running = TRUE AND datetime_end IS NULL AND (last_execution_date IS NULL
OR last_execution_date < CURRENT_DATE)`. -/
def isActiveForwardTest (today : ℕ) (r : ForwardTestRec) : Bool :=
  r.isRunning && r.datetimeEnd = none && notExecutedToday r.lastExecutionDate today

/-! ### Scheduler: `ForwardTestExecutor.execute_iteration`

One scheduler tick, for a single run.  A run is processed only if the
active-tests query selects it; the iteration body runs only inside the
trading window (`is_trading_time and (is_weekday or trade_on_weekends)`).
If the body raises, the exception is caught and `update_last_execution_date`
is not reached; on success the persisted last-execution date is set to the
current date.  The returned flag records whether the tick performed the
Evaluating/Executing body for this run. -/

def tickRun (today : ℕ) (tradingWindowOk : Bool) (iterationSucceeds : Bool)
    (r : ForwardTestRec) : ForwardTestRec × Bool :=
  if isActiveForwardTest today r then
    if tradingWindowOk then
      if iterationSucceeds then
        ({ r with lastExecutionDate := some today }, true)
      else (r, true)
    else (r, false)
  else (r, false)

/-! ### Order sequencer: `ForwardTestService.execute_trades`, lines 157-185

Trade actions carry a signed lot delta (`position_change`).  The source
runs two sequential loops over the action list: first all sell orders
(negative delta), each `post_order` wrapped in its own try/except, then all
buy orders (positive delta), likewise isolated. -/

structure TradeAction where
  ticker : String
  change : ℤ
  deriving Repr, DecidableEq

inductive Side where
  | sell
  | buy
  deriving Repr, DecidableEq

structure OrderEvent where
  ticker : String
  side : Side
  ok : Bool
  deriving Repr, DecidableEq

/-- The first loop of `execute_trades`: submit a sell order for every
action with negative delta; a failing submission (`post ticker = false`)
is caught and the loop continues. -/
def sellPhase (post : String → Bool) : List TradeAction → List OrderEvent
  | [] => []
  | a :: rest =>
      if a.change < 0 then
        { ticker := a.ticker, side := Side.sell, ok := post a.ticker } :: sellPhase post rest
      else sellPhase post rest

/-- The second loop of `execute_trades`: submit a buy order for every
action with positive delta, each submission isolated by try/except. -/
def buyPhase (post : String → Bool) : List TradeAction → List OrderEvent
  | [] => []
  | a :: rest =>
      if a.change > 0 then
        { ticker := a.ticker, side := Side.buy, ok := post a.ticker } :: buyPhase post rest
      else buyPhase post rest

/-- The submission trace of one iteration: the sell loop runs to
completion, then the buy loop. -/
def executeTradesTrace (post : String → Bool) (actions : List TradeAction) :
    List OrderEvent :=
  sellPhase post actions ++ buyPhase post actions

/-! ### Position sizer: `ForwardTestService.execute_trades`, lines 119-155 -/

/-- Python's built-in `round`: round half to even. -/
def pyRound (q : ℚ) : ℤ :=
  let f := ⌊q⌋
  let r := q - f
  if r < 1/2 then f
  else if 1/2 < r then f + 1
  else if f % 2 = 0 then f else f + 1

/-- The per-instrument sizing arithmetic of `execute_trades`:
`target_value = base_position_size * signal`;
`target_lots = round(target_value / (current_price * lot_size))`;
`position_change = target_lots - current_position // lot_size`
(Python `//` is floor division). -/
def positionChange (basePositionSize signal currentPrice : ℚ) (lotSize : ℤ)
    (currentPosition : ℤ) : ℤ :=
  let targetValue := basePositionSize * signal
  let targetLots := pyRound (targetValue / (currentPrice * lotSize))
  targetLots - Int.fdiv currentPosition lotSize

structure Instrument where
  figi : String
  lotSize : ℤ
  deriving Repr, DecidableEq

/-- The action-building loop of `execute_trades` (lines 126-155): signals
equal to `None` are skipped; an instrument whose ticker has no price data
is skipped after an error-level log (`continue`) — no exception is raised
and no error value is returned; otherwise a trade action with the sized
`position_change` is appended. -/
def buildTradeActions (instruments : String → Instrument)
    (positions : String → ℤ) (prices : String → Option ℚ)
    (basePositionSize : ℚ) : List (String × Option ℚ) → List TradeAction
  | [] => []
  | (_, none) :: rest =>
      buildTradeActions instruments positions prices basePositionSize rest
  | (ticker, some signal) :: rest =>
      match prices ticker with
      | none => buildTradeActions instruments positions prices basePositionSize rest
      | some price =>
          let inst := instruments ticker
          { ticker := ticker,
            change := positionChange basePositionSize signal price inst.lotSize
              (positions inst.figi) } ::
            buildTradeActions instruments positions prices basePositionSize rest

/-! ### Weight neutralizer: `neutralize_weights` in
`backend/utils/alpha_calculator.py`, lines 20-27

The function receives one cross-sectional row of signals.  pandas
semantics: `mean` skips NaN (NaN of an all-NaN row); subtraction with a
NaN operand is NaN; `.abs().sum()` skips NaN and sums an all-NaN row to 0;
division by a zero denominator yields NaN for a 0 numerator (for a defined
demeaned value the denominator, being the sum of all absolute demeaned
values, can only be 0 when that value is 0, so the infinite quotients are
unreachable and `none` covers all division-by-zero outcomes). -/

/-- Subtraction on NaN-aware values. -/
def osub : Option ℚ → Option ℚ → Option ℚ
  | some a, some b => some (a - b)
  | _, _ => none

/-- pandas row mean with `skipna=True`: the mean of the defined entries,
NaN when there are none. -/
def rowMean (xs : List (Option ℚ)) : Option ℚ :=
  let ds := xs.filterMap id
  if ds.isEmpty then none else some (ds.sum / ds.length)

/-- `neutralize_weights`: demean the row, then divide by the sum of
absolute values. -/
def neutralize_weights (xs : List (Option ℚ)) : List (Option ℚ) :=
  let μ := rowMean xs
  let demeaned := xs.map (fun x => osub x μ)
  let absSum := ((demeaned.filterMap id).map (fun a => |a|)).sum
  demeaned.map (fun x => x.bind (fun a =>
    if absSum = 0 then none else some (a / absSum)))

/-! ### Rolling-window helpers: `backend/utils/alpha_calculator.py`,
lines 31-48

`SMA`, `STD`, `MAX`, `MIN` call `series.rolling(window=W, closed='left')`:
the window at positional index `t` is the `W` observations at indices
`t-W .. t-1`, strictly before `t`; with fewer than `W` prior observations
(default `min_periods = W`) the result is NaN. -/

/-- Left-closed rolling combinator: apply `agg` to the `W` observations
strictly before index `t`; `none` while fewer than `W` exist. -/
def rollLeft {β : Type} (agg : List ℚ → β) (window : ℕ) (xs : List ℚ) :
    List (Option β) :=
  (List.range xs.length).map (fun t =>
    if window ≤ t then some (agg ((xs.drop (t - window)).take window)) else none)

/-- Mean of a window (the window always holds `window` elements when
defined). -/
def meanAgg (l : List ℚ) : ℚ := l.sum / l.length

/-- Sample variance of a window (`ddof = 1`, pandas `.std()` default);
the rolling standard deviation is its pointwise square root, so any
statement about which observations it reads transfers verbatim. -/
def sampleVarAgg (l : List ℚ) : ℚ :=
  (l.map (fun x => (x - meanAgg l) ^ 2)).sum / ((l.length : ℚ) - 1)

/-- Maximum of a (nonempty) window. -/
def maxAgg (l : List ℚ) : ℚ := l.foldr max l.headI

/-- Minimum of a (nonempty) window. -/
def minAgg (l : List ℚ) : ℚ := l.foldr min l.headI

/-- `SMA(series, window)` = `series.rolling(window, closed='left').mean()`. -/
def SMA (window : ℕ) (xs : List ℚ) : List (Option ℚ) := rollLeft meanAgg window xs

/-- The square of `STD(series, window)` =
`series.rolling(window, closed='left').std()`. -/
def STDsq (window : ℕ) (xs : List ℚ) : List (Option ℚ) :=
  rollLeft sampleVarAgg window xs

/-- `MAX(series, window)` = `series.rolling(window, closed='left').max()`. -/
def MAX (window : ℕ) (xs : List ℚ) : List (Option ℚ) := rollLeft maxAgg window xs

/-- `MIN(series, window)` = `series.rolling(window, closed='left').min()`. -/
def MIN (window : ℕ) (xs : List ℚ) : List (Option ℚ) := rollLeft minAgg window xs

/-! ### Rolling functions of the expression evaluator:
`Func.evaluate` in `backend/utils/expression_parser.py`, lines 66-105

These call `pd.Series(x).rolling(n)` with the default right-closed
window: the window at index `t` is the `n` observations at indices
`t-n+1 .. t`, including the current one. -/

/-- Right-closed rolling combinator of `pd.Series(x).rolling(n)`. -/
def rollRight {β : Type} (agg : List ℚ → β) (n : ℕ) (xs : List ℚ) :
    List (Option β) :=
  (List.range xs.length).map (fun t =>
    if n ≤ t + 1 then some (agg ((xs.take (t + 1)).drop (t + 1 - n))) else none)

/-- Right-closed rolling combinator on a pair of series
(`series_x.rolling(n).cov(series_y)`). -/
def rollRight2 {β : Type} (agg : List (ℚ × ℚ) → β) (n : ℕ) (xs ys : List ℚ) :
    List (Option β) :=
  let ps := xs.zip ys
  (List.range ps.length).map (fun t =>
    if n ≤ t + 1 then some (agg ((ps.take (t + 1)).drop (t + 1 - n))) else none)

/-- Population variance of a window (`ddof = 0`, as in the evaluator's
`stddev` branch: `rolling(n).std(ddof=0)`); the reported std is its
pointwise square root. -/
def popVarAgg (l : List ℚ) : ℚ :=
  (l.map (fun x => (x - meanAgg l) ^ 2)).sum / (l.length : ℚ)

/-- Product of a window (`np.prod`, the evaluator's `product` branch). -/
def prodAgg (l : List ℚ) : ℚ := l.prod

/-- `np.nanargmax` on a defined window: the position of the first
maximum. -/
def argmaxAgg (l : List ℚ) : ℚ := (l.indexOf (maxAgg l) : ℚ)

/-- `np.nanargmin` on a defined window: the position of the first
minimum. -/
def argminAgg (l : List ℚ) : ℚ := (l.indexOf (minAgg l) : ℚ)

/-- Sample covariance of a window of pairs (`ddof = 1`, the pandas
`rolling(n).cov` default). -/
def covAgg (l : List (ℚ × ℚ)) : ℚ :=
  let mx := meanAgg (l.map Prod.fst)
  let my := meanAgg (l.map Prod.snd)
  ((l.map (fun p => (p.1 - mx) * (p.2 - my))).sum) / ((l.length : ℚ) - 1)

namespace FuncEval

/-- Evaluator branch `mean`: `series_x.rolling(n).mean()`. -/
def mean (n : ℕ) (xs : List ℚ) : List (Option ℚ) := rollRight meanAgg n xs

/-- Evaluator branch `sum`: `series_x.rolling(n).sum()`. -/
def sum (n : ℕ) (xs : List ℚ) : List (Option ℚ) := rollRight List.sum n xs

/-- Evaluator branch `min`: `series_x.rolling(n).min()`. -/
def min (n : ℕ) (xs : List ℚ) : List (Option ℚ) := rollRight minAgg n xs

/-- Evaluator branch `max`: `series_x.rolling(n).max()`. -/
def max (n : ℕ) (xs : List ℚ) : List (Option ℚ) := rollRight maxAgg n xs

/-- Evaluator branch `product`. -/
def product (n : ℕ) (xs : List ℚ) : List (Option ℚ) := rollRight prodAgg n xs

/-- The square of evaluator branch `stddev` (`rolling(n).std(ddof=0)`). -/
def stddevSq (n : ℕ) (xs : List ℚ) : List (Option ℚ) := rollRight popVarAgg n xs

/-- Evaluator branch `ts_argmax`. -/
def ts_argmax (n : ℕ) (xs : List ℚ) : List (Option ℚ) := rollRight argmaxAgg n xs

/-- Evaluator branch `ts_argmin`. -/
def ts_argmin (n : ℕ) (xs : List ℚ) : List (Option ℚ) := rollRight argminAgg n xs

/-- Evaluator branch `covariance`: `series_x.rolling(n).cov(series_y)`. -/
def covariance (n : ℕ) (xs ys : List ℚ) : List (Option ℚ) :=
  rollRight2 covAgg n xs ys

end FuncEval

/-! ### Formula ASTs

The Python `ast` expression nodes reachable from `ast.parse(text,
mode='eval')` that the validator and the expression evaluator distinguish.
Argument lists are a mutually inductive list type so that all recursions
below are structural. -/

inductive BinOpKind where
  | add
  | sub
  | mult
  | div
  | pow
  | mod
  | floordiv
  deriving Repr, DecidableEq

inductive UnaryKind where
  | uadd
  | usub
  | notOp
  deriving Repr, DecidableEq

inductive CmpKind where
  | eq
  | ne
  | lt
  | le
  | gt
  | ge
  deriving Repr, DecidableEq

inductive BoolKind where
  | andOp
  | orOp
  deriving Repr, DecidableEq

mutual

inductive PyExpr where
  | constant (v : ℚ)
  | name (id : String)
  | binop (op : BinOpKind) (l r : PyExpr)
  | unaryop (op : UnaryKind) (e : PyExpr)
  | boolop (op : BoolKind) (values : PyArgs)
  | compare (l : PyExpr) (ops : List CmpKind) (comparators : PyArgs)
  | ifexp (c t e : PyExpr)
  | call (func : String) (args : PyArgs)
  | attributeNode (v : PyExpr) (attr : String)
  | subscript (v : PyExpr) (idx : PyExpr)
  | lambda (body : PyExpr)
  | comp (body : PyExpr)

inductive PyArgs where
  | nil
  | cons (head : PyExpr) (tail : PyArgs)

end

/-- `FormulaValidator.ALLOWED_FUNCS`. -/
def ALLOWED_FUNCS : List String := ["sma", "std", "max", "min", "sign", "abs"]

/-- `FormulaValidator.ALLOWED_NAMES`. -/
def ALLOWED_NAMES : List String :=
  ["open", "high", "low", "close", "volume", "returns", "True", "False"]

/-- The binary-operator nodes in `FormulaValidator.ALLOWED_NODE_TYPES`
(`Add, Sub, Mult, Div, Pow, Mod`); other operator nodes fail
`generic_visit`. -/
def allowedBinOp : BinOpKind → Bool
  | .add => true
  | .sub => true
  | .mult => true
  | .div => true
  | .pow => true
  | .mod => true
  | .floordiv => false

mutual

/-- `FormulaValidator.visit`: `True` iff visiting raises no `ValueError`.
Names must be in `ALLOWED_NAMES ∪ ALLOWED_FUNCS`; a call's function must be
a name in `ALLOWED_FUNCS` (its arguments are then visited, their number is
never examined); `Attribute`, `Subscript`, `Lambda` and comprehensions
raise; all other node kinds are checked against `ALLOWED_NODE_TYPES` and
their children visited. -/
def validate : PyExpr → Bool
  | .constant _ => true
  | .name id => ALLOWED_NAMES.contains id || ALLOWED_FUNCS.contains id
  | .binop op l r => allowedBinOp op && validate l && validate r
  | .unaryop _ e => validate e
  | .boolop _ vs => validateArgs vs
  | .compare l _ cs => validate l && validateArgs cs
  | .ifexp c t e => validate c && validate t && validate e
  | .call f args => ALLOWED_FUNCS.contains f && validateArgs args
  | .attributeNode _ _ => false
  | .subscript _ _ => false
  | .lambda _ => false
  | .comp _ => false

/-- Visit every element of an argument list. -/
def validateArgs : PyArgs → Bool
  | .nil => true
  | .cons e es => validate e && validateArgs es

end

/-! ### `ExpressionParser` (`backend/utils/expression_parser.py`)

`_parse_node` builds an `Expression` tree; `BoolOp`, `IfExp`, `Attribute`,
`Subscript`, `Lambda` and comprehensions fall to the
`Unsupported expression` branch, chained comparisons raise, and a binary
operator outside `BinOp.ops` ({Add, Sub, Mult, Div, Pow}) raises a
`KeyError` in `BinOp.__init__` after both operands parsed. -/

mutual

inductive Expr where
  | const (v : ℚ)
  | var (name : String)
  | func (name : String) (args : EArgs)
  | binop (op : BinOpKind) (l r : Expr)
  | unary (op : UnaryKind) (e : Expr)
  | cmp (op : CmpKind) (l r : Expr)

inductive EArgs where
  | nil
  | cons (head : Expr) (tail : EArgs)

end

/-- The keys of `BinOp.ops`. -/
def parserBinOpOk : BinOpKind → Bool
  | .add => true
  | .sub => true
  | .mult => true
  | .div => true
  | .pow => true
  | .mod => false
  | .floordiv => false

mutual

/-- `ExpressionParser._parse_node`. -/
def parseNode : PyExpr → Except String Expr
  | .constant v => Except.ok (.const v)
  | .name id => Except.ok (.var id)
  | .binop op l r => do
      let L ← parseNode l
      let R ← parseNode r
      if parserBinOpOk op then Except.ok (.binop op L R)
      else Except.error "KeyError"
  | .unaryop op e => do
      let E ← parseNode e
      Except.ok (.unary op E)
  | .boolop _ _ => Except.error "Unsupported expression"
  | .compare l ops cs =>
      match ops, cs with
      | [o], .cons c .nil => do
          let L ← parseNode l
          let C ← parseNode c
          Except.ok (.cmp o L C)
      | _, _ => Except.error "Chained comparisons not supported"
  | .ifexp _ _ _ => Except.error "Unsupported expression"
  | .call f args => do
      let As ← parseArgs args
      Except.ok (.func f As)
  | .attributeNode _ _ => Except.error "Unsupported expression"
  | .subscript _ _ => Except.error "Unsupported expression"
  | .lambda _ => Except.error "Unsupported expression"
  | .comp _ => Except.error "Unsupported expression"

/-- Parse each call argument in order. -/
def parseArgs : PyArgs → Except String EArgs
  | .nil => Except.ok .nil
  | .cons e es => do
      let E ← parseNode e
      let Es ← parseArgs es
      Except.ok (.cons E Es)

end

/-- The function names `Func.evaluate` dispatches on; any other name
reaches `raise ValueError(f"Unknown function: ...")`. -/
def EVAL_FUNCS : List String :=
  ["abs", "sign", "log", "rank", "delay", "delta", "scale", "signedpower",
   "ternary", "correlation", "covariance", "ts_argmax", "ts_argmin", "sum",
   "product", "stddev", "mean", "min", "max", "indneutralize"]

mutual

/-- Whether evaluating an `Expression` tree reaches one of the evaluator's
`raise` statements, given which symbols the context binds.
`Var.evaluate` raises on an unbound name; `Func.evaluate` evaluates all
arguments first and raises on a function name outside its dispatch chain;
`UnaryOp.evaluate` raises on `Not`; `BinOp`/`Compare` only evaluate their
children.  Argument-count and argument-type errors inside implemented
branches are not modelled, so this under-approximates the real failure
set. -/
def evalRaises (ctx : String → Bool) : Expr → Bool
  | .const _ => false
  | .var n => !ctx n
  | .func n args => evalRaisesArgs ctx args || !EVAL_FUNCS.contains n
  | .binop _ l r => evalRaises ctx l || evalRaises ctx r
  | .unary op e => evalRaises ctx e || (op == UnaryKind.notOp)
  | .cmp _ l r => evalRaises ctx l || evalRaises ctx r

/-- Evaluate `arg.evaluate(context)` over the argument list. -/
def evalRaisesArgs (ctx : String → Bool) : EArgs → Bool
  | .nil => false
  | .cons e es => evalRaises ctx e || evalRaisesArgs ctx es

end

/-- The evaluation context built by
`ForwardTestService.calculate_alpha_signals` /
`BacktestService._calculate_alpha_signals`: the OHLCV columns of the
candle dataframe. -/
def stdContext : String → Bool := fun n =>
  ["open", "high", "low", "close", "volume"].contains n

mutual

/-- A formula AST contains (anywhere in the tree) one of the constructs
whose rejection the specification asserts, arity aside: a name outside the
validator's allow-lists, a call to a function outside `ALLOWED_FUNCS`, an
attribute access, a subscript, a lambda, or a comprehension. -/
def hasDisallowed : PyExpr → Bool
  | .constant _ => false
  | .name id => !(ALLOWED_NAMES.contains id || ALLOWED_FUNCS.contains id)
  | .binop _ l r => hasDisallowed l || hasDisallowed r
  | .unaryop _ e => hasDisallowed e
  | .boolop _ vs => hasDisallowedArgs vs
  | .compare l _ cs => hasDisallowed l || hasDisallowedArgs cs
  | .ifexp c t e => hasDisallowed c || hasDisallowed t || hasDisallowed e
  | .call f args => !ALLOWED_FUNCS.contains f || hasDisallowedArgs args
  | .attributeNode _ _ => true
  | .subscript _ _ => true
  | .lambda _ => true
  | .comp _ => true

/-- Disallowed-construct search over an argument list. -/
def hasDisallowedArgs : PyArgs → Bool
  | .nil => false
  | .cons e es => hasDisallowed e || hasDisallowedArgs es

end

mutual

/-- A formula AST confined to the fragment the expression evaluator fully
implements: every symbol is bound by the context, every called function is
in the evaluator's dispatch chain, no `not` operator, and no node kind the
expression grammar lacks (`BoolOp`, `IfExp`, attributes, subscripts,
lambdas, comprehensions). -/
def okForEval (ctx : String → Bool) : PyExpr → Bool
  | .constant _ => true
  | .name id => ctx id
  | .binop _ l r => okForEval ctx l && okForEval ctx r
  | .unaryop op e => (op == UnaryKind.uadd || op == UnaryKind.usub) && okForEval ctx e
  | .boolop _ _ => false
  | .compare l _ cs => okForEval ctx l && okForEvalArgs ctx cs
  | .ifexp _ _ _ => false
  | .call f args => EVAL_FUNCS.contains f && okForEvalArgs ctx args
  | .attributeNode _ _ => false
  | .subscript _ _ => false
  | .lambda _ => false
  | .comp _ => false

/-- The evaluator-implemented fragment, over argument lists. -/
def okForEvalArgs (ctx : String → Bool) : PyArgs → Bool
  | .nil => true
  | .cons e es => okForEval ctx e && okForEvalArgs ctx es

end

/-! ## Helper lemmas -/

theorem sellPhase_map_eq (post : String → Bool) (actions : List TradeAction) :
    (sellPhase post actions).map (fun e => (e.ticker, e.side)) =
      (actions.filter (fun a => a.change < 0)).map
        (fun a => (a.ticker, Side.sell)) := by
  induction actions with
  | nil => rfl
  | cons a rest ih =>
      by_cases h : a.change < 0 <;> simp [sellPhase, List.filter, h, ih]

theorem buyPhase_map_eq (post : String → Bool) (actions : List TradeAction) :
    (buyPhase post actions).map (fun e => (e.ticker, e.side)) =
      (actions.filter (fun a => 0 < a.change)).map
        (fun a => (a.ticker, Side.buy)) := by
  induction actions with
  | nil => rfl
  | cons a rest ih =>
      by_cases h : 0 < a.change <;> simp [buyPhase, List.filter, h, ih]

theorem sellPhase_side (post : String → Bool) (actions : List TradeAction) :
    ∀ e ∈ sellPhase post actions, e.side = Side.sell := by
  induction actions with
  | nil => intro e he; cases he
  | cons a rest ih =>
      intro e he
      by_cases h : a.change < 0
      · simp only [sellPhase, if_pos h, List.mem_cons] at he
        rcases he with he | he
        · rw [he]
        · exact ih e he
      · simp only [sellPhase, if_neg h] at he
        exact ih e he

theorem buyPhase_side (post : String → Bool) (actions : List TradeAction) :
    ∀ e ∈ buyPhase post actions, e.side = Side.buy := by
  induction actions with
  | nil => intro e he; cases he
  | cons a rest ih =>
      intro e he
      by_cases h : 0 < a.change
      · simp only [buyPhase, if_pos h, List.mem_cons] at he
        rcases he with he | he
        · rw [he]
        · exact ih e he
      · simp only [buyPhase, if_neg h] at he
        exact ih e he

theorem sell_before_buy_aux {α : Type} (l₁ l₂ : List α) (p : α → Side)
    (h1 : ∀ e ∈ l₁, p e = Side.sell) (h2 : ∀ e ∈ l₂, p e = Side.buy)
    (i j : ℕ) (hi : i < (l₁ ++ l₂).length) (hj : j < (l₁ ++ l₂).length)
    (hs : p ((l₁ ++ l₂).get ⟨i, hi⟩) = Side.sell)
    (hb : p ((l₁ ++ l₂).get ⟨j, hj⟩) = Side.buy) : i < j := by
  have hins : i < l₁.length := by
    by_contra h'
    push_neg at h'
    have hmem : (l₁ ++ l₂).get ⟨i, hi⟩ ∈ l₂ := by
      rw [List.get_eq_getElem, List.getElem_append_right h']
      exact List.getElem_mem _
    have hbuyi := h2 _ hmem
    rw [hs] at hbuyi
    exact Side.noConfusion hbuyi
  have hjns : l₁.length ≤ j := by
    by_contra h'
    push_neg at h'
    have hmem : (l₁ ++ l₂).get ⟨j, hj⟩ ∈ l₁ := by
      rw [List.get_eq_getElem, List.getElem_append_left h']
      exact List.getElem_mem _
    have hsellj := h1 _ hmem
    rw [hb] at hsellj
    exact Side.noConfusion hsellj
  omega

/-! ## Claim theorems -/

/-- C10: `Database.stop_forward_test` is a write-once stop: the update is
guarded by `datetime_end IS NULL`, so the first stop sets the end
timestamp, clears the running flag and reports success, and any subsequent
stop of the same record reports failure (`false`) and leaves the record —
end timestamp and running flag included — unchanged. -/
theorem c10_stop_write_once (r : ForwardTestRec) (n1 n2 : ℕ)
    (h : r.datetimeEnd = none) :
    (stop_forward_test n1 r).1.datetimeEnd = some n1 ∧
    (stop_forward_test n1 r).1.isRunning = false ∧
    (stop_forward_test n1 r).2 = true ∧
    stop_forward_test n2 (stop_forward_test n1 r).1 =
      ((stop_forward_test n1 r).1, false) := by
  simp [stop_forward_test, h]

/-- Witness for C10 at a concrete record. -/
theorem c10_stop_write_once_witness :
    (stop_forward_test 5 (⟨true, none, none⟩ : ForwardTestRec)).1.datetimeEnd
        = some 5 ∧
    (stop_forward_test 5 (⟨true, none, none⟩ : ForwardTestRec)).1.isRunning
        = false ∧
    (stop_forward_test 5 (⟨true, none, none⟩ : ForwardTestRec)).2 = true ∧
    stop_forward_test 9
        (stop_forward_test 5 (⟨true, none, none⟩ : ForwardTestRec)).1 =
      ((stop_forward_test 5 (⟨true, none, none⟩ : ForwardTestRec)).1, false) :=
  c10_stop_write_once ⟨true, none, none⟩ 5 9 rfl

/-- C2: scheduler at-most-once-per-day idempotency.  If a tick performs an
iteration for an active run on day `d` (and the iteration completes, so
`update_last_execution_date` runs), then a second tick on the same day
performs no Evaluating/Executing for that run and leaves its record
unchanged; the persisted last-execution date, which was not `d` before the
first tick, is set to `d` by it and changes no further that day — exactly
one change. -/
theorem c2_scheduler_at_most_once_per_day (r : ForwardTestRec) (d : ℕ)
    (t1 t2 s2 : Bool) (h1 : (tickRun d t1 true r).2 = true) :
    (tickRun d t2 s2 (tickRun d t1 true r).1).2 = false ∧
    (tickRun d t2 s2 (tickRun d t1 true r).1).1 = (tickRun d t1 true r).1 ∧
    r.lastExecutionDate ≠ some d ∧
    (tickRun d t1 true r).1.lastExecutionDate = some d := by
  have hA : isActiveForwardTest d r = true := by
    cases hA' : isActiveForwardTest d r with
    | true => rfl
    | false => rw [tickRun, hA'] at h1; simp at h1
  have hT : t1 = true := by
    cases hT' : t1 with
    | true => rfl
    | false => rw [tickRun, hA] at h1; simp [hT'] at h1
  subst hT
  have hne : r.lastExecutionDate ≠ some d := by
    intro hEq
    rw [isActiveForwardTest, hEq] at hA
    simp [notExecutedToday] at hA
  have hr1 : (tickRun d true true r).1 = { r with lastExecutionDate := some d } := by
    rw [tickRun, hA]; simp
  have hA2 : isActiveForwardTest d
      ({ r with lastExecutionDate := some d } : ForwardTestRec) = false := by
    simp [isActiveForwardTest, notExecutedToday]
  refine ⟨?_, ?_, hne, ?_⟩
  · rw [hr1, tickRun, hA2]; simp
  · rw [hr1, tickRun, hA2]; simp
  · rw [hr1]

/-- Witness for C2: a fresh active record, day 3, both ticks inside the
trading window. -/
theorem c2_scheduler_at_most_once_per_day_witness :
    (tickRun 3 true true (tickRun 3 true true ⟨true, none, none⟩).1).2
        = false ∧
    (tickRun 3 true true (tickRun 3 true true ⟨true, none, none⟩).1).1
        = (tickRun 3 true true (⟨true, none, none⟩ : ForwardTestRec)).1 ∧
    (⟨true, none, none⟩ : ForwardTestRec).lastExecutionDate ≠ some 3 ∧
    (tickRun 3 true true (⟨true, none, none⟩ : ForwardTestRec)).1.lastExecutionDate
        = some 3 :=
  c2_scheduler_at_most_once_per_day ⟨true, none, none⟩ 3 true true true (by decide)

/-- C3: order sequencing and failure isolation.  The submission trace of
one iteration lists exactly one attempt per nonzero-delta intent — sells
(in input order) first, buys after; the sequence of attempted submissions
is the same whatever subset of submissions fails (each `post_order` sits
in its own try/except, so one instrument's failure never suppresses
another's submission); and positionally, every sell-side event precedes
every buy-side event. -/
theorem c3_sells_before_buys_isolated (post post' : String → Bool)
    (actions : List TradeAction) :
    ((executeTradesTrace post actions).map (fun e => (e.ticker, e.side)) =
      (actions.filter (fun a => a.change < 0)).map
          (fun a => (a.ticker, Side.sell)) ++
        (actions.filter (fun a => 0 < a.change)).map
          (fun a => (a.ticker, Side.buy))) ∧
    ((executeTradesTrace post actions).map (fun e => (e.ticker, e.side)) =
      (executeTradesTrace post' actions).map (fun e => (e.ticker, e.side))) ∧
    (∀ (i j : ℕ) (hi : i < (executeTradesTrace post actions).length)
        (hj : j < (executeTradesTrace post actions).length),
      ((executeTradesTrace post actions).get ⟨i, hi⟩).side = Side.sell →
      ((executeTradesTrace post actions).get ⟨j, hj⟩).side = Side.buy →
      i < j) := by
  have hchar : ∀ p : String → Bool,
      (executeTradesTrace p actions).map (fun e => (e.ticker, e.side)) =
        (actions.filter (fun a => a.change < 0)).map
            (fun a => (a.ticker, Side.sell)) ++
          (actions.filter (fun a => 0 < a.change)).map
            (fun a => (a.ticker, Side.buy)) := by
    intro p
    rw [executeTradesTrace, List.map_append, sellPhase_map_eq, buyPhase_map_eq]
  refine ⟨hchar post, by rw [hchar post, hchar post'], ?_⟩
  intro i j hi hj hsell hbuy
  exact sell_before_buy_aux (sellPhase post actions) (buyPhase post actions)
    OrderEvent.side (sellPhase_side post actions) (buyPhase_side post actions)
    i j hi hj hsell hbuy

/-- C6 counterexample: a zero weight does not always yield a zero lot
delta.  With portfolio value 1000, price 10, lot size 10 and a held
position of 10 base units (one lot), signal 0 sizes to `target_lots = 0`
and `position_change = 0 - 10 // 10 = -1`, and the sequencer then submits
a sell order for that instrument — refuting "zero weight produces a zero
delta and no order submission regardless of the currently held
position". -/
theorem c6_zero_weight_counterexample :
    positionChange 1000 0 10 10 10 = -1 ∧
    executeTradesTrace (fun _ => true)
        [{ ticker := "A", change := positionChange 1000 0 10 10 10 }] =
      [{ ticker := "A", side := Side.sell, ok := true }] := by
  have h : positionChange 1000 0 10 10 10 = -1 := by
    norm_num [positionChange, pyRound, Int.fdiv]
  refine ⟨h, ?_⟩
  rw [h]
  rfl

/-- C6 (amended): a zero neutralized weight yields zero *target* lots, so
the lot delta equals minus the currently held position in whole lots:
it is zero — and produces no order submission — exactly when less than one
lot is held; with a held position the sizer emits a sell-to-zero delta.
The price hypothesis reflects Python's division raising on a zero
denominator. -/
theorem c6_zero_weight_amended (base price : ℚ) (lotSize held : ℤ)
    (_hpl : price * (lotSize : ℚ) ≠ 0) :
    positionChange base 0 price lotSize held = -(held.fdiv lotSize) ∧
    (held.fdiv lotSize = 0 →
      ∀ (post : String → Bool) (t : String),
        executeTradesTrace post
          [{ ticker := t,
             change := positionChange base 0 price lotSize held }] = []) := by
  have h0 : positionChange base 0 price lotSize held = -(held.fdiv lotSize) := by
    simp [positionChange, pyRound]
  refine ⟨h0, fun hz post t => ?_⟩
  rw [h0, hz]
  rfl

/-- Witness for C6 (amended): price 10, lot size 10, 3 base units held
(less than one lot). -/
theorem c6_zero_weight_amended_witness :
    ((10 : ℚ) * ((10 : ℤ) : ℚ) ≠ 0) ∧
    (positionChange 1000 0 10 10 3 = -(Int.fdiv 3 10) ∧
      (Int.fdiv 3 10 = 0 →
        ∀ (post : String → Bool) (t : String),
          executeTradesTrace post
            [{ ticker := t, change := positionChange 1000 0 10 10 3 }] = [])) :=
  ⟨by norm_num, c6_zero_weight_amended 1000 10 10 3 (by norm_num)⟩

/-- C7 counterexample: an instrument with a defined weight but no
available price is not reported to the caller at all.  The sizing loop is
a total function into a plain action list — there is no error channel —
and on a one-instrument input with no price it returns normally with the
empty list (`logger.error` + `continue` in the source), refuting "reports
a SizingError for that instrument to its caller". -/
theorem c7_missing_price_counterexample :
    buildTradeActions (fun _ => { figi := "F", lotSize := 1 }) (fun _ => 0)
        (fun _ => none) 1000 [("A", some (1/2))] = [] := by
  rfl

/-- C7 (amended): an instrument with a defined weight but no available
price at sizing time is silently skipped (after an error-level log): the
sizer's output is exactly the output for the input with all unpriced or
undefined-signal entries removed, and no error value reaches the
caller. -/
theorem c7_missing_price_amended (instruments : String → Instrument)
    (positions : String → ℤ) (prices : String → Option ℚ) (base : ℚ)
    (entries : List (String × Option ℚ)) :
    buildTradeActions instruments positions prices base entries =
      buildTradeActions instruments positions prices base
        (entries.filter (fun e => e.2.isSome && (prices e.1).isSome)) := by
  induction entries with
  | nil => rfl
  | cons e rest ih =>
      obtain ⟨t, s⟩ := e
      cases s with
      | none => simpa [buildTradeActions, List.filter] using ih
      | some w =>
          cases hp : prices t with
          | none => simp [buildTradeActions, List.filter, hp, ih]
          | some p => simp [buildTradeActions, List.filter, hp, ih]

/-! ## Neutralizer lemmas -/

theorem map_eq_replicate {α β : Type} (l : List α) (f : α → β) (b : β)
    (h : ∀ x ∈ l, f x = b) : l.map f = List.replicate l.length b := by
  induction l with
  | nil => rfl
  | cons a t ih =>
      simp only [List.map_cons, List.length_cons, List.replicate_succ]
      rw [h a (by simp), ih (fun x hx => h x (by simp [hx]))]

theorem filterMap_id_map_some (ys : List ℚ) (f : ℚ → ℚ) :
    ((ys.map (fun y => some (f y))).filterMap id) = ys.map f := by
  induction ys with
  | nil => rfl
  | cons a t ih => simp [List.filterMap_cons, ih]

theorem sum_map_div (l : List ℚ) (f : ℚ → ℚ) (s : ℚ) :
    (l.map (fun x => f x / s)).sum = (l.map f).sum / s := by
  induction l with
  | nil => simp
  | cons a t ih => simp [ih, add_div]

theorem sum_abs_map_div (l : List ℚ) (f : ℚ → ℚ) (s : ℚ) (hs : 0 < s) :
    ((l.map (fun x => f x / s)).map (fun w => |w|)).sum =
      ((l.map f).map (fun a => |a|)).sum / s := by
  induction l with
  | nil => simp
  | cons a t ih =>
      simp only [List.map_cons, List.sum_cons]
      rw [ih, abs_div, abs_of_pos hs, add_div]

theorem sum_map_sub (ys : List ℚ) (μ : ℚ) :
    (ys.map (fun y => y - μ)).sum = ys.sum - ys.length * μ := by
  induction ys with
  | nil => simp
  | cons a t ih =>
      simp only [List.map_cons, List.sum_cons, ih, List.length_cons]
      push_cast
      ring

/-- C4 counterexample: on the all-equal signal vector `[1, 1]` the
demeaned row is all zeros, the absolute sum is `0`, and
`neutralize_weights` divides `0/0`, producing the all-undefined (NaN)
vector — not the all-zero vector the claim asserts. -/
theorem c4_neutralizer_degenerate_counterexample :
    neutralize_weights [some 1, some 1] = [none, none] ∧
    neutralize_weights [some 1, some 1] ≠ [some 0, some 0] := by
  have h : neutralize_weights [some 1, some 1] = [none, none] := by
    norm_num [neutralize_weights, rowMean, osub, List.filterMap_cons]
  exact ⟨h, by rw [h]; simp⟩

/-- C4 (amended): for a degenerate signal vector — all entries equal, or
all entries undefined — the demeaned row is all zeros (resp. all
undefined), the absolute-value sum is `0`, and `neutralize_weights`
divides by that zero sum, returning the all-undefined (NaN) vector of the
same length rather than the all-zero vector. -/
theorem c4_neutralizer_degenerate_amended (xs : List (Option ℚ))
    (h : (∃ c, ∀ x ∈ xs, x = some c) ∨ (∀ x ∈ xs, x = none)) :
    neutralize_weights xs = List.replicate xs.length none := by
  rcases h with ⟨c, hall⟩ | hall
  · by_cases hnil : xs = []
    · subst hnil; rfl
    · have hxs : xs = List.replicate xs.length (some c) :=
        List.eq_replicate_length.mpr hall
      rw [neutralize_weights]
      rw [show xs.map (fun x => osub x (rowMean xs)) =
          List.replicate xs.length (some 0) from ?_]
      · have hfm : (List.replicate xs.length (some (0:ℚ))).filterMap id =
            List.replicate xs.length (0:ℚ) := by
          simp [List.filterMap_replicate]
        rw [hfm]
        simp [List.map_replicate, List.sum_replicate]
      · have hmean : rowMean xs = some c := by
          rw [rowMean]
          have hfm : xs.filterMap id = List.replicate xs.length c := by
            conv_lhs => rw [hxs]
            simp [List.filterMap_replicate]
          rw [hfm]
          have hlen : xs.length ≠ 0 := by
            simpa [List.length_eq_zero] using hnil
          simp only [List.isEmpty_iff, List.length_replicate, List.sum_replicate,
            nsmul_eq_mul]
          rw [if_neg (by simpa [← List.length_eq_zero, List.replicate_eq_nil_iff]
            using hlen)]
          congr 1
          field_simp
        rw [hmean]
        apply map_eq_replicate
        intro x hx
        rw [hall x hx]
        simp [osub]
  · have hfm : xs.filterMap id = [] := by
      rw [List.filterMap_eq_nil_iff]
      intro a ha
      simpa using hall a ha
    have hmean : rowMean xs = none := by
      rw [rowMean, hfm]
      rfl
    rw [neutralize_weights, hmean]
    rw [show xs.map (fun x => osub x none) =
        List.replicate xs.length (none : Option ℚ) from ?_]
    · simp [List.filterMap_replicate, List.map_replicate]
    · apply map_eq_replicate
      intro x hx
      cases x <;> rfl

/-- Witness for C4 (amended) at the all-equal vector `[7, 7, 7]`. -/
theorem c4_neutralizer_degenerate_amended_witness :
    neutralize_weights [some 7, some 7, some 7] =
      List.replicate ([some 7, some 7, some 7] : List (Option ℚ)).length none :=
  c4_neutralizer_degenerate_amended [some 7, some 7, some 7]
    (Or.inl ⟨7, by intro x hx; simpa using hx⟩)

theorem rowMean_map_some (ys : List ℚ) (hnil : ys ≠ []) :
    rowMean (ys.map some) = some (ys.sum / ys.length) := by
  have hfm : (ys.map some).filterMap id = ys := by
    rw [List.filterMap_map]
    exact List.filterMap_some ys
  rw [rowMean, hfm, if_neg (by simpa [List.isEmpty_iff] using hnil)]

/-- Closed form of `neutralize_weights` on an all-defined row whose
demeaned absolute sum is nonzero. -/
theorem neutralize_weights_map_some (ys : List ℚ) (hnil : ys ≠ [])
    (hSne : ((ys.map (fun y => y - ys.sum / ys.length)).map
      (fun a => |a|)).sum ≠ 0) :
    neutralize_weights (ys.map some) =
      ys.map (fun y => some ((y - ys.sum / ys.length) /
        ((ys.map (fun z => z - ys.sum / ys.length)).map (fun a => |a|)).sum)) := by
  have hmean := rowMean_map_some ys hnil
  rw [neutralize_weights, hmean]
  have hdemean : (ys.map some).map (fun x => osub x (some (ys.sum / ys.length))) =
      ys.map (fun y => some (y - ys.sum / ys.length)) := by
    rw [List.map_map]
    rfl
  rw [hdemean, filterMap_id_map_some, List.map_map]
  rw [List.map_map]
  apply List.map_congr_left
  intro y _
  rw [← List.map_map]
  simp only [Function.comp_apply]
  rw [Option.some_bind', if_neg hSne]

/-- C9: for a finite, all-defined signal vector whose values are not all
equal, `neutralize_weights` produces all-defined weights with
`|sum(weights)| < ε` and `|sum(|weights|) - 1| < ε` for every positive
tolerance `ε` (in fact the sums are exactly `0` and `1` in exact
arithmetic), and every weight lies in `[-1, 1]`. -/
theorem c9_neutralizer_nondegenerate (ys : List ℚ)
    (hne : ∃ a ∈ ys, ∃ b ∈ ys, a ≠ b) (ε : ℚ) (hε : 0 < ε) :
    ∃ ws : List ℚ,
      neutralize_weights (ys.map some) = ws.map some ∧
      |ws.sum| < ε ∧
      |(ws.map (fun w => |w|)).sum - 1| < ε ∧
      ∀ w ∈ ws, -1 ≤ w ∧ w ≤ 1 := by
  obtain ⟨a, ha, b, hb, hab⟩ := hne
  have hnil : ys ≠ [] := by rintro rfl; cases ha
  have hlen0 : ys.length ≠ 0 := by simpa [List.length_eq_zero] using hnil
  have hlenQ : (ys.length : ℚ) ≠ 0 := Nat.cast_ne_zero.mpr hlen0
  set μ : ℚ := ys.sum / ys.length with hμ
  set S : ℚ := ((ys.map (fun y => y - μ)).map (fun a => |a|)).sum with hS
  have habsnn : ∀ x ∈ (ys.map (fun y => y - μ)).map (fun a => |a|), 0 ≤ x := by
    intro x hx
    rcases List.mem_map.mp hx with ⟨z, _, rfl⟩
    exact abs_nonneg z
  have hyne : ∃ y ∈ ys, y - μ ≠ 0 := by
    by_contra hcon
    push_neg at hcon
    exact hab ((sub_eq_zero.mp (hcon a ha)).trans
      (sub_eq_zero.mp (hcon b hb)).symm)
  have hSpos : 0 < S := by
    obtain ⟨y, hy, hy0⟩ := hyne
    have hmem : |y - μ| ∈ (ys.map (fun y => y - μ)).map (fun a => |a|) :=
      List.mem_map_of_mem _ (List.mem_map_of_mem _ hy)
    have hle := List.single_le_sum habsnn _ hmem
    have habs : 0 < |y - μ| := abs_pos.mpr hy0
    rw [hS]
    linarith
  have hSne : S ≠ 0 := ne_of_gt hSpos
  have hsingle : ∀ y ∈ ys, |y - μ| ≤ S := by
    intro y hy
    exact List.single_le_sum habsnn _
      (List.mem_map_of_mem _ (List.mem_map_of_mem _ hy))
  refine ⟨ys.map (fun y => (y - μ) / S), ?_, ?_, ?_, ?_⟩
  · rw [neutralize_weights_map_some ys hnil (by exact hSne)]
    conv_rhs => rw [List.map_map]
    apply List.map_congr_left
    intro y _
    simp only [Function.comp_apply]
  · rw [sum_map_div, sum_map_sub, hμ]
    rw [mul_div_cancel₀ _ hlenQ]
    simp [hε]
  · rw [sum_abs_map_div ys (fun y => y - μ) S hSpos, ← hS, div_self hSne]
    simpa using hε
  · intro w hw
    rcases List.mem_map.mp hw with ⟨y, hy, rfl⟩
    have hbound : |(y - μ) / S| ≤ 1 := by
      rw [abs_div, abs_of_pos hSpos, div_le_one hSpos]
      exact hsingle y hy
    exact abs_le.mp hbound

/-- Witness for C9: the signal vector `[1, 3]` (weights `[-1/2, 1/2]`)
with tolerance `1/100`. -/
theorem c9_neutralizer_nondegenerate_witness :
    ∃ ws : List ℚ,
      neutralize_weights (([1, 3] : List ℚ).map some) = ws.map some ∧
      |ws.sum| < 1/100 ∧
      |(ws.map (fun w => |w|)).sum - 1| < 1/100 ∧
      ∀ w ∈ ws, -1 ≤ w ∧ w ≤ 1 :=
  c9_neutralizer_nondegenerate [1, 3]
    ⟨1, by simp, 3, by simp, by norm_num⟩ (1/100) (by norm_num)

/-! ## Rolling-window lemmas -/

theorem rollLeft_window_set (xs : List ℚ) (t W : ℕ) (v : ℚ) (hW : W ≤ t) :
    ((xs.set t v).drop (t - W)).take W = (xs.drop (t - W)).take W := by
  apply List.ext_getElem?
  intro i
  rw [List.getElem?_take, List.getElem?_take]
  by_cases hi : i < W
  · rw [if_pos hi, if_pos hi, List.getElem?_drop, List.getElem?_drop,
      List.getElem?_set_ne (by omega : t ≠ t - W + i)]
  · rw [if_neg hi, if_neg hi]

theorem rollLeft_no_lookahead {β : Type} (agg : List ℚ → β) (W : ℕ)
    (xs : List ℚ) (t : ℕ) (v : ℚ) (ht : t < xs.length) :
    (rollLeft agg W (xs.set t v)).get? t = (rollLeft agg W xs).get? t := by
  rw [rollLeft, rollLeft, List.length_set]
  rw [List.get?_eq_getElem?, List.get?_eq_getElem?, List.getElem?_map,
    List.getElem?_map, List.getElem?_range ht]
  simp only [Option.map_some']
  by_cases hW : W ≤ t
  · rw [if_pos hW, if_pos hW, rollLeft_window_set xs t W v hW]
  · rw [if_neg hW, if_neg hW]

/-- C1 (amended): the no-lookahead invariant holds for the left-closed
rolling helpers of the alpha-formula path — `rolling(window,
closed='left')` reads only the `W` observations strictly before `t`, so
replacing the value at `t` with any sentinel never changes the output at
`t`, for an arbitrary aggregator and in particular for `SMA`, `STD`
(via its square), `MAX` and `MIN`.  The expression evaluator's rolling
functions use right-closed windows that include the observation at `t`
and do not satisfy it (see the counterexample). -/
theorem c1_no_lookahead_amended :
    (∀ (β : Type) (agg : List ℚ → β) (W : ℕ) (xs : List ℚ) (t : ℕ) (v : ℚ),
      t < xs.length →
      (rollLeft agg W (xs.set t v)).get? t = (rollLeft agg W xs).get? t) ∧
    (∀ (W : ℕ) (xs : List ℚ) (t : ℕ) (v : ℚ), t < xs.length →
      (SMA W (xs.set t v)).get? t = (SMA W xs).get? t ∧
      (STDsq W (xs.set t v)).get? t = (STDsq W xs).get? t ∧
      (MAX W (xs.set t v)).get? t = (MAX W xs).get? t ∧
      (MIN W (xs.set t v)).get? t = (MIN W xs).get? t) := by
  refine ⟨fun β agg W xs t v ht => rollLeft_no_lookahead agg W xs t v ht,
    fun W xs t v ht => ⟨?_, ?_, ?_, ?_⟩⟩
  · exact rollLeft_no_lookahead meanAgg W xs t v ht
  · exact rollLeft_no_lookahead sampleVarAgg W xs t v ht
  · exact rollLeft_no_lookahead maxAgg W xs t v ht
  · exact rollLeft_no_lookahead minAgg W xs t v ht

/-- Witness for C1 (amended): window 2 over `[1, 2, 3]`, sentinel `99`
injected at `t = 2`. -/
theorem c1_no_lookahead_amended_witness :
    ((2 : ℕ) < ([1, 2, 3] : List ℚ).length) ∧
    (rollLeft meanAgg 2 (([1, 2, 3] : List ℚ).set 2 99)).get? 2 =
      (rollLeft meanAgg 2 [1, 2, 3]).get? 2 ∧
    (SMA 2 (([1, 2, 3] : List ℚ).set 2 99)).get? 2 = (SMA 2 [1, 2, 3]).get? 2 ∧
    (STDsq 2 (([1, 2, 3] : List ℚ).set 2 99)).get? 2 =
      (STDsq 2 [1, 2, 3]).get? 2 ∧
    (MAX 2 (([1, 2, 3] : List ℚ).set 2 99)).get? 2 = (MAX 2 [1, 2, 3]).get? 2 ∧
    (MIN 2 (([1, 2, 3] : List ℚ).set 2 99)).get? 2 = (MIN 2 [1, 2, 3]).get? 2 :=
  ⟨by norm_num,
   c1_no_lookahead_amended.1 ℚ meanAgg 2 [1, 2, 3] 2 99 (by norm_num),
   (c1_no_lookahead_amended.2 2 [1, 2, 3] 2 99 (by norm_num)).1,
   (c1_no_lookahead_amended.2 2 [1, 2, 3] 2 99 (by norm_num)).2.1,
   (c1_no_lookahead_amended.2 2 [1, 2, 3] 2 99 (by norm_num)).2.2.1,
   (c1_no_lookahead_amended.2 2 [1, 2, 3] 2 99 (by norm_num)).2.2.2⟩

/-- C1 counterexample: the expression evaluator's rolling functions
(`pd.Series(x).rolling(n)` without `closed='left'`) read the observation
at `t` itself: over the series `[1, 3]` with window 2, injecting the
sentinel `0` at `t = 1` changes the output at `t = 1` for every one of
`mean`, `sum`, `min`, `max`, `product`, `stddev` (via its square),
`ts_argmax`, `ts_argmin` and `covariance` — refuting the claim that
sentinel injection at `t` never changes the output at `t` for each
rolling function the evaluator implements. -/
theorem c1_no_lookahead_counterexample :
    (FuncEval.mean 2 (([1, 3] : List ℚ).set 1 0)).get? 1 ≠
      (FuncEval.mean 2 [1, 3]).get? 1 ∧
    (FuncEval.sum 2 (([1, 3] : List ℚ).set 1 0)).get? 1 ≠
      (FuncEval.sum 2 [1, 3]).get? 1 ∧
    (FuncEval.min 2 (([1, 3] : List ℚ).set 1 0)).get? 1 ≠
      (FuncEval.min 2 [1, 3]).get? 1 ∧
    (FuncEval.max 2 (([1, 3] : List ℚ).set 1 0)).get? 1 ≠
      (FuncEval.max 2 [1, 3]).get? 1 ∧
    (FuncEval.product 2 (([1, 3] : List ℚ).set 1 0)).get? 1 ≠
      (FuncEval.product 2 [1, 3]).get? 1 ∧
    (FuncEval.stddevSq 2 (([1, 3] : List ℚ).set 1 0)).get? 1 ≠
      (FuncEval.stddevSq 2 [1, 3]).get? 1 ∧
    (FuncEval.ts_argmax 2 (([1, 3] : List ℚ).set 1 0)).get? 1 ≠
      (FuncEval.ts_argmax 2 [1, 3]).get? 1 ∧
    (FuncEval.ts_argmin 2 (([1, 3] : List ℚ).set 1 0)).get? 1 ≠
      (FuncEval.ts_argmin 2 [1, 3]).get? 1 ∧
    (FuncEval.covariance 2 (([1, 3] : List ℚ).set 1 0) [1, 3]).get? 1 ≠
      (FuncEval.covariance 2 [1, 3] [1, 3]).get? 1 := by
  refine ⟨?_, ?_, ?_, ?_, ?_, ?_, ?_, ?_, ?_⟩
  · norm_num [FuncEval.mean, rollRight, meanAgg, List.range_succ]
  · norm_num [FuncEval.sum, rollRight, List.range_succ]
  · norm_num [FuncEval.min, rollRight, minAgg, List.range_succ]
  · norm_num [FuncEval.max, rollRight, maxAgg, List.range_succ]
  · norm_num [FuncEval.product, rollRight, prodAgg, List.range_succ]
  · norm_num [FuncEval.stddevSq, rollRight, popVarAgg, meanAgg,
      List.range_succ]
  · norm_num [FuncEval.ts_argmax, rollRight, argmaxAgg, maxAgg,
      List.range_succ, List.indexOf, List.findIdx, List.findIdx.go,
      show ((1 : ℚ) == 3) = false from beq_eq_false_iff_ne.mpr (by norm_num),
      show ((1 : ℚ) == 1) = true from beq_iff_eq.mpr rfl,
      show ((3 : ℚ) == 3) = true from beq_iff_eq.mpr rfl]
  · norm_num [FuncEval.ts_argmin, rollRight, argminAgg, minAgg,
      List.range_succ, List.indexOf, List.findIdx, List.findIdx.go,
      show ((1 : ℚ) == 0) = false from beq_eq_false_iff_ne.mpr (by norm_num),
      show ((3 : ℚ) == 1) = false from beq_eq_false_iff_ne.mpr (by norm_num),
      show ((1 : ℚ) == 1) = true from beq_iff_eq.mpr rfl,
      show ((0 : ℚ) == 0) = true from beq_iff_eq.mpr rfl]
  · have hset : (([1, 3] : List ℚ).set 1 0) = [1, 0] := rfl
    rw [hset]
    have h1 : (FuncEval.covariance 2 ([1, 0] : List ℚ) [1, 3]).get? 1 =
        some (some (-1)) := by
      simp only [FuncEval.covariance, rollRight2, covAgg, meanAgg,
        List.zip_cons_cons, List.zip_nil_right, List.range_succ,
        List.range_zero, List.map_cons, List.map_nil, List.map_append,
        List.nil_append, List.cons_append, List.length_cons, List.length_nil]
      norm_num [List.get?]
    have h2 : (FuncEval.covariance 2 ([1, 3] : List ℚ) [1, 3]).get? 1 =
        some (some 2) := by
      simp only [FuncEval.covariance, rollRight2, covAgg, meanAgg,
        List.zip_cons_cons, List.zip_nil_right, List.range_succ,
        List.range_zero, List.map_cons, List.map_nil, List.map_append,
        List.nil_append, List.cons_append, List.length_cons, List.length_nil]
      norm_num [List.get?]
    rw [h1, h2]
    simp only [ne_eq, Option.some.injEq]
    norm_num

/-! ## Validator lemmas -/

mutual

theorem validate_false_of_bad :
    ∀ e : PyExpr, hasDisallowed e = true → validate e = false
  | .constant _, h => by rw [hasDisallowed] at h; exact Bool.noConfusion h
  | .name id, h => by
      rw [hasDisallowed, Bool.not_eq_true'] at h
      rw [validate]
      exact h
  | .binop op l r, h => by
      rw [hasDisallowed] at h
      rw [validate]
      rw [Bool.or_eq_true] at h
      rcases h with hl | hr
      · rw [validate_false_of_bad l hl]
        simp
      · rw [validate_false_of_bad r hr]
        simp
  | .unaryop op e, h => by
      rw [hasDisallowed] at h
      rw [validate]
      exact validate_false_of_bad e h
  | .boolop op vs, h => by
      rw [hasDisallowed] at h
      rw [validate]
      exact validateArgs_false_of_bad vs h
  | .compare l ops cs, h => by
      rw [hasDisallowed] at h
      rw [validate]
      rw [Bool.or_eq_true] at h
      rcases h with hl | hc
      · rw [validate_false_of_bad l hl]
        simp
      · rw [validateArgs_false_of_bad cs hc]
        simp
  | .ifexp c t e, h => by
      rw [hasDisallowed] at h
      rw [validate]
      rw [Bool.or_eq_true] at h
      rcases h with h12 | h3
      · rw [Bool.or_eq_true] at h12
        rcases h12 with h1 | h2
        · rw [validate_false_of_bad c h1]
          simp
        · rw [validate_false_of_bad t h2]
          simp
      · rw [validate_false_of_bad e h3]
        simp
  | .call f args, h => by
      rw [hasDisallowed] at h
      rw [validate]
      rw [Bool.or_eq_true] at h
      rcases h with hf | ha
      · rw [Bool.not_eq_true'] at hf
        rw [hf]
        simp
      · rw [validateArgs_false_of_bad args ha]
        simp
  | .attributeNode _ _, _ => by rw [validate]
  | .subscript _ _, _ => by rw [validate]
  | .lambda _, _ => by rw [validate]
  | .comp _, _ => by rw [validate]

theorem validateArgs_false_of_bad :
    ∀ as : PyArgs, hasDisallowedArgs as = true → validateArgs as = false
  | .nil, h => by rw [hasDisallowedArgs] at h; exact Bool.noConfusion h
  | .cons e es, h => by
      rw [hasDisallowedArgs] at h
      rw [validateArgs]
      rw [Bool.or_eq_true] at h
      rcases h with he | hes
      · rw [validate_false_of_bad e he]
        simp
      · rw [validateArgs_false_of_bad es hes]
        simp

end

/-- C5 counterexample: a call to an allowed function with the wrong
number of arguments is not a compile-time failure.  `sma` is used with
two arguments (`SMA(series, window)`), yet the formula `sma(close)`
passes `FormulaValidator` — `visit_Call` checks only the function name
and never the argument count — so compilation succeeds and a Program is
produced, refuting the claim that wrong arity fails compilation. -/
theorem c5_wrong_arity_counterexample :
    validate (.call "sma" (.cons (.name "close") .nil)) = true := rfl

/-- C5 (amended): a formula containing — anywhere in its tree — an
unknown name, a call to a function outside the allow-list, an attribute
access, a subscript, a comprehension, or a lambda fails validation
entirely (no Program is produced); but a call to an allowed function
with a wrong number of arguments is not rejected at compile time (it
fails only at evaluation). -/
theorem c5_rejection_amended (e : PyExpr) (h : hasDisallowed e = true) :
    validate e = false :=
  validate_false_of_bad e h

/-- Witness for C5 (amended): a subscript expression. -/
theorem c5_rejection_amended_witness :
    hasDisallowed (.subscript (.name "close") (.constant 0)) = true ∧
    validate (.subscript (.name "close") (.constant 0)) = false :=
  ⟨rfl, c5_rejection_amended (.subscript (.name "close") (.constant 0)) rfl⟩

/-! ## Evaluator lemmas -/

mutual

theorem evalRaises_false_of_ok (ctx : String → Bool) :
    ∀ (p : PyExpr) (e : Expr), okForEval ctx p = true →
      parseNode p = Except.ok e → evalRaises ctx e = false
  | .constant v, e, _, hp => by
      rw [parseNode] at hp
      injection hp with h
      subst h
      rw [evalRaises]
  | .name id, e, hok, hp => by
      rw [parseNode] at hp
      injection hp with h
      subst h
      rw [okForEval] at hok
      rw [evalRaises, hok]
      rfl
  | .binop op l r, e, hok, hp => by
      rw [parseNode] at hp
      rw [okForEval, Bool.and_eq_true] at hok
      cases hL : parseNode l with
      | error s => rw [hL] at hp; simp [Bind.bind, Except.bind] at hp
      | ok L =>
          rw [hL] at hp
          cases hR : parseNode r with
          | error s => rw [hR] at hp; simp [Bind.bind, Except.bind] at hp
          | ok R =>
              rw [hR] at hp
              simp only [Bind.bind, Except.bind] at hp
              by_cases hop : parserBinOpOk op = true
              · rw [if_pos hop] at hp
                injection hp with h
                subst h
                rw [evalRaises,
                  evalRaises_false_of_ok ctx l L hok.1 hL,
                  evalRaises_false_of_ok ctx r R hok.2 hR]
                rfl
              · rw [if_neg hop] at hp
                exact Except.noConfusion hp
  | .unaryop op e', e, hok, hp => by
      rw [parseNode] at hp
      rw [okForEval, Bool.and_eq_true] at hok
      cases hE : parseNode e' with
      | error s => rw [hE] at hp; simp [Bind.bind, Except.bind] at hp
      | ok E =>
          rw [hE] at hp
          simp only [Bind.bind, Except.bind] at hp
          injection hp with h
          subst h
          rw [evalRaises, evalRaises_false_of_ok ctx e' E hok.2 hE]
          cases op with
          | uadd => rfl
          | usub => rfl
          | notOp => exact absurd hok.1 (by decide)
  | .boolop op vs, e, hok, _ => by
      rw [okForEval] at hok
      exact Bool.noConfusion hok
  | .compare l ops cs, e, hok, hp => by
      rw [okForEval, Bool.and_eq_true] at hok
      cases ops with
      | nil =>
          rw [parseNode] at hp
          · exact Except.noConfusion hp
          · intro o1 c1 h1 h2
            exact List.noConfusion h1
      | cons o ops' =>
          cases ops' with
          | cons o2 rest =>
              rw [parseNode] at hp
              · exact Except.noConfusion hp
              · intro o1 c1 h1 h2
                injection h1 with h h'
                exact List.noConfusion h'
          | nil =>
              cases cs with
              | nil =>
                  rw [parseNode] at hp
                  · exact Except.noConfusion hp
                  · intro o1 c1 h1 h2
                    exact PyArgs.noConfusion h2
              | cons c cs' =>
                  cases cs' with
                  | cons c2 rest =>
                      rw [parseNode] at hp
                      · exact Except.noConfusion hp
                      · intro o1 c1 h1 h2
                        injection h2 with h h'
                        exact PyArgs.noConfusion h'
                  | nil =>
                      rw [parseNode] at hp
                      have hokc : okForEval ctx c = true := by
                        have h2 := hok.2
                        rw [okForEvalArgs, Bool.and_eq_true] at h2
                        exact h2.1
                      cases hL : parseNode l with
                      | error s =>
                          rw [hL] at hp
                          simp [Bind.bind, Except.bind] at hp
                      | ok L =>
                          rw [hL] at hp
                          cases hC : parseNode c with
                          | error s =>
                              rw [hC] at hp
                              simp [Bind.bind, Except.bind] at hp
                          | ok C =>
                              rw [hC] at hp
                              simp only [Bind.bind, Except.bind] at hp
                              injection hp with h
                              subst h
                              rw [evalRaises,
                                evalRaises_false_of_ok ctx l L hok.1 hL,
                                evalRaises_false_of_ok ctx c C hokc hC]
                              rfl
  | .ifexp c t e', e, hok, _ => by
      rw [okForEval] at hok
      exact Bool.noConfusion hok
  | .call f args, e, hok, hp => by
      rw [parseNode] at hp
      rw [okForEval, Bool.and_eq_true] at hok
      cases hA : parseArgs args with
      | error s => rw [hA] at hp; simp [Bind.bind, Except.bind] at hp
      | ok As =>
          rw [hA] at hp
          simp only [Bind.bind, Except.bind] at hp
          injection hp with h
          subst h
          rw [evalRaises, evalRaisesArgs_false_of_ok ctx args As hok.2 hA,
            hok.1]
          rfl
  | .attributeNode _ _, e, hok, _ => by
      rw [okForEval] at hok
      exact Bool.noConfusion hok
  | .subscript _ _, e, hok, _ => by
      rw [okForEval] at hok
      exact Bool.noConfusion hok
  | .lambda _, e, hok, _ => by
      rw [okForEval] at hok
      exact Bool.noConfusion hok
  | .comp _, e, hok, _ => by
      rw [okForEval] at hok
      exact Bool.noConfusion hok

theorem evalRaisesArgs_false_of_ok (ctx : String → Bool) :
    ∀ (as : PyArgs) (es : EArgs), okForEvalArgs ctx as = true →
      parseArgs as = Except.ok es → evalRaisesArgs ctx es = false
  | .nil, es, _, hp => by
      rw [parseArgs] at hp
      injection hp with h
      subst h
      rw [evalRaisesArgs]
  | .cons e rest, es, hok, hp => by
      rw [parseArgs] at hp
      rw [okForEvalArgs, Bool.and_eq_true] at hok
      cases hE : parseNode e with
      | error s => rw [hE] at hp; simp [Bind.bind, Except.bind] at hp
      | ok E =>
          rw [hE] at hp
          cases hR : parseArgs rest with
          | error s => rw [hR] at hp; simp [Bind.bind, Except.bind] at hp
          | ok Es =>
              rw [hR] at hp
              simp only [Bind.bind, Except.bind] at hp
              injection hp with h
              subst h
              rw [evalRaisesArgs, evalRaises_false_of_ok ctx e E hok.1 hE,
                evalRaisesArgs_false_of_ok ctx rest Es hok.2 hR]
              rfl

end

/-- C8 counterexample: evaluation can fail after successful compilation.
The formula `sma(close, 5)` is accepted by `FormulaValidator` (`sma` is in
`ALLOWED_FUNCS`) and parses to a Program, but the expression evaluator's
dispatch chain has no `sma` branch — its rolling mean is named `mean` — so
evaluating the compiled Program against the standard OHLCV context reaches
`raise ValueError("Unknown function: sma")`: the unknown-function branch is
reachable from validated input. -/
theorem c8_eval_after_validation_counterexample :
    validate (.call "sma" (.cons (.name "close") (.cons (.constant 5) .nil)))
        = true ∧
    parseNode (.call "sma" (.cons (.name "close") (.cons (.constant 5) .nil)))
        = Except.ok (.func "sma" (.cons (.var "close") (.cons (.const 5) .nil))) ∧
    evalRaises stdContext
        (.func "sma" (.cons (.var "close") (.cons (.const 5) .nil))) = true :=
  ⟨rfl, rfl, rfl⟩

/-- C8 (amended): successful validation alone does not make the
evaluator's error branches unreachable (the validator's allow-list
contains `sma` and `std`, which the expression evaluator does not
implement, and the symbol `returns`, which the OHLCV context does not
bind).  The branches are unreachable only for validated formulas that
stay inside the evaluator-implemented fragment: every called function in
the evaluator's dispatch chain and every symbol bound by the context —
for such formulas, once parsing succeeds, evaluation reaches no
unknown-function or unknown-variable error. -/
theorem c8_eval_safe_amended (p : PyExpr) (e : Expr)
    (_hv : validate p = true) (hok : okForEval stdContext p = true)
    (hp : parseNode p = Except.ok e) :
    evalRaises stdContext e = false :=
  evalRaises_false_of_ok stdContext p e hok hp

/-- Witness for C8 (amended): `max(close, 5)` — validated, inside the
evaluator's fragment, and evaluating without error. -/
theorem c8_eval_safe_amended_witness :
    validate (.call "max" (.cons (.name "close") (.cons (.constant 5) .nil)))
        = true ∧
    okForEval stdContext
        (.call "max" (.cons (.name "close") (.cons (.constant 5) .nil))) = true ∧
    parseNode (.call "max" (.cons (.name "close") (.cons (.constant 5) .nil)))
        = Except.ok (.func "max" (.cons (.var "close") (.cons (.const 5) .nil))) ∧
    evalRaises stdContext
        (.func "max" (.cons (.var "close") (.cons (.const 5) .nil))) = false :=
  ⟨rfl, rfl, rfl,
    c8_eval_safe_amended
      (.call "max" (.cons (.name "close") (.cons (.constant 5) .nil)))
      (.func "max" (.cons (.var "close") (.cons (.const 5) .nil)))
      rfl rfl rfl⟩

end InvestAlphas
